import Mathlib

/-!
Verification of the MCP server tester's orchestration and validation pipeline.

The definitions below are shallow embeddings of the TypeScript sources:
  - `src/types/index.ts`        (data model: TestCase, ValidationRule, ToolResponse, …)
  - `src/validator/ResponseValidator.ts`  (validateResponse / validateRules / rule kinds)
  - `src/client/MCPClient.ts`   (executeTool, disconnect)
  - `src/test-generator/TestGenerator.ts` (generateTests, parseResponse)
  - `src/index.ts`              (the orchestrator loop `runTests`)

JavaScript dynamic values are modelled by the `Json` tree below (numbers as
`Int`; the repository never exercises fractional values), an absent value
(`undefined`) by `Option`, and code that can throw by `Except String`.
-/

namespace MCPTester

/-- A JSON-like dynamic value: the response payloads, rule values and inputs
flowing through the validator.  Objects are ordered field lists, mirroring
JavaScript object insertion order. -/
inductive Json where
  | null : Json
  | bool (b : Bool) : Json
  | num (n : Int) : Json
  | str (s : String) : Json
  | arr (elems : List Json) : Json
  | obj (fields : List (String × Json)) : Json

/-! ## JSON.stringify

`ResponseValidator.validateMatches` compares `JSON.stringify(targetValue)`
with `JSON.stringify(value)`.  We model the serializer over `List Char`. -/

/-- Decimal digit character for a digit 0–9. -/
def digitChar : Nat → Char
  | 0 => '0' | 1 => '1' | 2 => '2' | 3 => '3' | 4 => '4'
  | 5 => '5' | 6 => '6' | 7 => '7' | 8 => '8' | _ => '9'

/-- Decimal digit characters of a natural number (most significant first). -/
def natChars (n : Nat) : List Char :=
  if _h : n < 10 then [digitChar n]
  else natChars (n / 10) ++ [digitChar (n % 10)]
  termination_by n
  decreasing_by exact Nat.div_lt_self (by omega) (by omega)

/-- Decimal rendering of an integer, as JS `String(number)` renders integral
numbers. -/
def intChars : Int → List Char
  | .ofNat n => natChars n
  | .negSucc n => '-' :: natChars (n + 1)

/-- Is `c` one of the characters `JSON.stringify` escapes in a string?
(The model covers the quote, backslash and the common control characters.) -/
def isEsc (c : Char) : Bool :=
  c = '"' || c = '\\' || c = '\n' || c = '\r' || c = '\t'

/-- The escape code emitted after the backslash for an escaped character. -/
def escCode (c : Char) : Char :=
  if c = '"' then '"'
  else if c = '\\' then '\\'
  else if c = '\n' then 'n'
  else if c = '\r' then 'r'
  else 't'

/-- Serialization of one character inside a JSON string literal. -/
def escChar (c : Char) : List Char :=
  if isEsc c then ['\\', escCode c] else [c]

/-- Serialization of the characters of a JSON string literal (without the
surrounding quotes). -/
def escChars : List Char → List Char
  | [] => []
  | c :: cs => escChar c ++ escChars cs

mutual

/-- Characters of `JSON.stringify` applied to a `Json` value. -/
def emit : Json → List Char
  | .null => 'n' :: 'u' :: 'l' :: 'l' :: []
  | .bool true => 't' :: 'r' :: 'u' :: 'e' :: []
  | .bool false => 'f' :: 'a' :: 'l' :: 's' :: 'e' :: []
  | .num i => intChars i
  | .str s => '"' :: (escChars s.data ++ ['"'])
  | .arr elems => '[' :: (emitList elems ++ [']'])
  | .obj fields => '{' :: (emitObj fields ++ ['}'])

/-- Array elements joined by commas. -/
def emitList : List Json → List Char
  | [] => []
  | [j] => emit j
  | j :: js => emit j ++ ',' :: emitList js

/-- Object entries (`"key":value`) joined by commas. -/
def emitObj : List (String × Json) → List Char
  | [] => []
  | [(k, v)] => '"' :: (escChars k.data ++ '"' :: ':' :: emit v)
  | (k, v) :: es => ('"' :: (escChars k.data ++ '"' :: ':' :: emit v)) ++ ',' :: emitObj es

end

/-- `JSON.stringify` of a value, as a string. -/
def stringify (j : Json) : String := String.mk (emit j)

/-! ### Injectivity of the serializer

`validateMatches` decides deep equality by comparing serializations, so we
prove the serialization determines the value.  The proof is a standard
prefix-freeness argument: a serialized value followed by a guarded
continuation (one not starting with a digit) determines both the value and
the continuation. -/

/-- Numeric value of a digit character. -/
def digitVal (c : Char) : Nat := c.toNat - 48

/-- Is `c` a decimal digit? -/
def isDigitChar (c : Char) : Bool := '0' ≤ c && c ≤ '9'

/-- Read decimal digits back into a number (accumulator style). -/
def natVal : List Char → Nat → Nat
  | [], acc => acc
  | c :: cs, acc => natVal cs (acc * 10 + digitVal c)

/-- A continuation that does not begin with a digit: after a serialized
number, such a continuation cannot extend the number. -/
def Guard (r : List Char) : Prop := ∀ c, r.head? = some c → isDigitChar c = false

/-- Constructor discriminant of a `Json` value. -/
def ctorTag : Json → Nat
  | .null => 0
  | .bool _ => 1
  | .num _ => 2
  | .str _ => 3
  | .arr _ => 4
  | .obj _ => 5

/-- Constructor discriminant recoverable from the first serialized
character. -/
def tagOfChar (c : Char) : Nat :=
  if c = 'n' then 0
  else if c = 't' then 1
  else if c = 'f' then 1
  else if c = '"' then 3
  else if c = '[' then 4
  else if c = '{' then 5
  else 2

/-- Characters that can begin a serialized value. -/
def isStarter (c : Char) : Bool :=
  c = 'n' || c = 't' || c = 'f' || c = '"' || c = '[' || c = '{' || c = '-' || isDigitChar c

/-- The serialized form of `j` with any guarded continuation determines `j`
and the continuation. -/
def EmitCancel (j : Json) : Prop :=
  ∀ (j₂ : Json) (r₁ r₂ : List Char), Guard r₁ → Guard r₂ →
    emit j ++ r₁ = emit j₂ ++ r₂ → j = j₂ ∧ r₁ = r₂

/-! ## Data model (`src/types/index.ts`) -/

/-- `'success' | 'error'` status literals. -/
inductive Status where
  | success
  | error
deriving DecidableEq

/-- The `error` payload of a `ToolResponse`. -/
structure ToolError where
  message : String
  code : Option String := none

/-- `ToolResponse`: `{ status, data?, error? }`. -/
structure ToolResponse where
  status : Status
  data : Option Json := none
  error : Option ToolError := none

/-- The four declared rule kinds of `ValidationRule.type`. -/
inductive RuleType where
  | contains
  | matches
  | hasProperty
  | custom
deriving DecidableEq

/-- `ValidationRule`.  The declared interface carries the predicate in the
field `customValidator`, but `ResponseValidator.validateRules` reads the
property `rule.custom`; since JavaScript objects are open we model both
properties, each possibly absent.  A predicate receives the full response
data and may throw (`Except.error`). -/
structure ValidationRule where
  type : RuleType
  target : Option String := none
  value : Option Json := none
  customValidator : Option (Option Json → Except String Bool) := none
  custom : Option (Option Json → Except String Bool) := none
  message : String

/-- `TestCase.expectedOutcome`. -/
structure ExpectedOutcome where
  status : Status
  validationRules : Option (List ValidationRule) := none

/-- `TestCase`.  The declared interface nests the rules under
`expectedOutcome`, but `validateResponse` reads the (undeclared) top-level
property `testCase.validationRules`; we model both, the top-level one
absent on every case built by `TestGenerator.parseResponse`. -/
structure TestCase where
  toolName : String
  description : String
  inputs : List (String × Json) := []
  expectedOutcome : ExpectedOutcome
  validationRules : Option (List ValidationRule) := none

/-- `ValidationResult`: `{ valid, errors }`. -/
structure ValidationResult where
  valid : Bool
  errors : List String
deriving DecidableEq

/-- `TestResult` as built by the orchestrator loop in `src/index.ts`. -/
structure TestResult where
  testCase : TestCase
  passed : Bool
  response : Option ToolResponse := none
  validationErrors : Option (List String) := none
  executionTime : Option Nat := none

/-- `ToolDefinition` (the generator also reads `inputSchema.properties`,
irrelevant to control flow). -/
structure ToolDefinition where
  name : String
  description : String := ""

/-! ## JavaScript value helpers -/

/-- JS truthiness of a `Json` value (`!x` is `true` exactly on falsy `x`). -/
def truthy : Json → Bool
  | .null => false
  | .bool b => b
  | .num n => n != 0
  | .str s => s != ""
  | .arr _ => true
  | .obj _ => true

/-- Truthiness of a possibly-absent value (`undefined` is falsy). -/
def truthyOpt : Option Json → Bool
  | none => false
  | some j => truthy j

/-- `m || dflt` for an optional string: the default replaces an absent or
empty (falsy) string. -/
def jsStringOr (m : Option String) (dflt : String) : String :=
  match m with
  | some s => if s = "" then dflt else s
  | none => dflt

/-! ## ResponseValidator (`src/validator/ResponseValidator.ts`) -/

/-- `path.split('.')` — the dot-separated segments, keeping empty
segments, as JS `String.prototype.split` does. -/
def splitDotAux : List Char → List Char → List String
  | [], acc => [String.mk acc.reverse]
  | c :: cs, acc =>
    if c = '.' then String.mk acc.reverse :: splitDotAux cs []
    else splitDotAux cs (c :: acc)

/-- `path.split('.')` on a string. -/
def splitDot (p : String) : List String := splitDotAux p.data []

/-- JS array indexing by a string key: only the canonical decimal rendering
of an index addresses an element. -/
def canonicalIndex (part : String) : Option Nat :=
  match part.toNat? with
  | some i => if toString i = part then some i else none
  | none => none

/-- The traversal loop of `getValueByPath`: a `null`/`undefined` or
non-object intermediate yields `undefined`. -/
def pathWalk : List String → Option Json → Option Json
  | [], cur => cur
  | _ :: _, none => none
  | part :: rest, some j =>
    match j with
    | .null => none
    | .bool _ => none
    | .num _ => none
    | .str _ => none
    | .arr elems =>
      pathWalk rest (match canonicalIndex part with
        | some i => elems.get? i
        | none => none)
    | .obj fields => pathWalk rest (List.lookup part fields)

/-- `getValueByPath(data, path)`: an absent or empty path (both falsy)
returns `data` itself; otherwise traverse the dot-separated segments. -/
def getValueByPath (data : Option Json) (path : Option String) : Option Json :=
  match path with
  | none => data
  | some p => if p = "" then data else pathWalk (splitDot p) data

/-- Is the value a JS primitive for the purposes of `===`? -/
def isPrimitive : Json → Bool
  | .null => true
  | .bool _ => true
  | .num _ => true
  | .str _ => true
  | .arr _ => false
  | .obj _ => false

/-- JS `===` on our value domain: structural on primitives.  Two distinct
array/object values are never reference-identical, so `===` is false. -/
def jeqPrim : Json → Json → Bool
  | .null, .null => true
  | .bool a, .bool b => a == b
  | .num a, .num b => a == b
  | .str a, .str b => a == b
  | _, _ => false

/-- `Array.prototype.includes` on an array target (SameValueZero). -/
def jsIncludes (elems : List Json) (value : Option Json) : Bool :=
  match value with
  | some v => isPrimitive v && elems.any (fun e => jeqPrim e v)
  | none => false

/-- `validateContains(data, target, value)`: a string target must contain a
string value as a substring; an array target must include the value as an
element; anything else fails. -/
def validateContains (data : Option Json) (target : Option String)
    (value : Option Json) : Bool :=
  let targetValue := getValueByPath data target
  match targetValue, value with
  | some (.str s), some (.str v) => decide (v.data <:+: s.data)
  | some (.arr elems), v => jsIncludes elems v
  | _, _ => false

/-- Is the rule value enclosed in forward slashes (`startsWith('/') &&
endsWith('/')`, i.e. first and last character are both a slash)? -/
def regexWrapped (v : String) : Bool :=
  (v.data.head? == some '/') && (v.data.getLast? == some '/')

/-- `value.slice(1, -1)`: the regex source between the slashes (drop the
first and last character). -/
def regexBody (v : String) : String := String.mk (v.data.drop 1).dropLast

/-- `JSON.stringify` of a possibly-absent value (`undefined` serializes to
`undefined`). -/
def stringifyOpt (v : Option Json) : Option String := v.map stringify

/-- `validateMatches(data, target, value)`.  `rt pattern s` stands for
`new RegExp(pattern).test(s)`, an opaque collaborator of the model. -/
def validateMatches (rt : String → String → Bool) (data : Option Json)
    (target : Option String) (value : Option Json) : Bool :=
  let targetValue := getValueByPath data target
  match targetValue, value with
  | some (.str tv), some (.str v) =>
    if regexWrapped v then rt (regexBody v) tv else tv == v
  | tv, v => stringifyOpt tv == stringifyOpt v

/-- The traversal loop of `validateHasProperty`: every segment must exist
as a key (`part in current`), whatever its value. -/
def hasPathWalk : List String → Option Json → Bool
  | [], _ => true
  | _ :: _, none => false
  | part :: rest, some j =>
    match j with
    | .null => false
    | .bool _ => false
    | .num _ => false
    | .str _ => false
    | .arr elems =>
      match canonicalIndex part with
      | some i =>
        match elems.get? i with
        | some e => hasPathWalk rest (some e)
        | none => false
      | none => false
    | .obj fields =>
      match List.lookup part fields with
      | some v => hasPathWalk rest (some v)
      | none => false

/-- `validateHasProperty(data, target)`: a falsy target fails outright. -/
def validateHasProperty (data : Option Json) (target : Option String) : Bool :=
  match target with
  | none => false
  | some t => if t = "" then false else hasPathWalk (splitDot t) data

/-- One arm of the `switch (rule.type)` in `validateRules`: `.ok none` when
the rule passes (or is skipped), `.ok (some msg)` when it pushes its
message, `.error e` when a custom predicate throws. -/
def applyRule (rt : String → String → Bool) (data : Option Json)
    (rule : ValidationRule) : Except String (Option String) :=
  match rule.type with
  | .contains =>
    .ok (if validateContains data rule.target rule.value then none else some rule.message)
  | .matches =>
    .ok (if validateMatches rt data rule.target rule.value then none else some rule.message)
  | .hasProperty =>
    .ok (if validateHasProperty data rule.target then none else some rule.message)
  | .custom =>
    match rule.custom with
    | none => .ok none
    | some f =>
      match f data with
      | .ok b => .ok (if b then none else some rule.message)
      | .error e => .error e

/-- `validateRules(data, rules)`: accumulate failure messages in rule
order; an exception from a predicate propagates, discarding the list. -/
def validateRules (rt : String → String → Bool) (data : Option Json) :
    List ValidationRule → Except String (List String)
  | [] => .ok []
  | rule :: rest =>
    match applyRule rt data rule with
    | .error e => .error e
    | .ok none => validateRules rt data rest
    | .ok (some m) => (validateRules rt data rest).map (fun errs => m :: errs)

/-- `validateResponse(response, testCase)`. -/
def validateResponse (rt : String → String → Bool) (response : ToolResponse)
    (testCase : TestCase) : Except String ValidationResult :=
  if response.status = .error then
    .ok { valid := false,
          errors := ["Tool execution failed: " ++
            jsStringOr (response.error.map (fun e => e.message)) "Unknown error"] }
  else
    match testCase.validationRules with
    | some rules =>
      if 0 < rules.length then
        (validateRules rt response.data rules).map (fun errs =>
          { valid := errs.isEmpty, errors := errs })
      else
        .ok (if truthyOpt response.data then { valid := true, errors := [] }
          else { valid := false, errors := ["No data in response"] })
    | none =>
      .ok (if truthyOpt response.data then { valid := true, errors := [] }
        else { valid := false, errors := ["No data in response"] })

/-! ## MCPClient (`src/client/MCPClient.ts`) -/

/-- The transport-level failure thrown by `session.callTool`; its `message`
may be absent or empty (both falsy). -/
structure CallFailure where
  message : Option String := none
  code : Option String := none

/-- `MCPClient.executeTool(name, params)`.  `session` is the connected
session (absent before `connect`); `call` is the outcome of the underlying
`session.callTool` invocation. -/
def executeTool (session : Option Unit) (call : Except CallFailure Json) :
    Except String ToolResponse :=
  match session with
  | none => .error "Not connected to an MCP server"
  | some _ =>
    match call with
    | .ok response => .ok { status := .success, data := some response }
    | .error e =>
      .ok { status := .error,
            error := some { message := jsStringOr e.message "Unknown error",
                            code := e.code } }

/-- Resource-holding state of an `MCPClient`. -/
structure ClientState where
  session : Option Unit := none
  server : Option Unit := none
  serverProcess : Option Unit := none
  tools : List ToolDefinition := []

/-- `MCPClient.disconnect()`: closes session, server and child process and
clears the tool list.  Its body is wrapped in try/catch, so it never
throws — it returns a plain state, not an `Except`. -/
def disconnect (_st : ClientState) : ClientState :=
  { session := none, server := none, serverProcess := none, tools := [] }

/-! ## TestGenerator (`src/test-generator/TestGenerator.ts`) -/

/-- Shape of one test object as parsed from the model reply by
`parseResponse` (fields read off `parsedTests` entries). -/
structure RawTestCase where
  description : String
  inputs : List (String × Json) := []
  status : Status
  validationRules : Option (List ValidationRule) := none

/-- The per-entry conversion inside `parseResponse`: note
`test.expectedOutcome.validationRules || []` and that no top-level
`validationRules` property is created. -/
def toTestCase (toolName : String) (t : RawTestCase) : TestCase :=
  { toolName := toolName,
    description := t.description,
    inputs := t.inputs,
    expectedOutcome := { status := t.status,
                         validationRules := some (t.validationRules.getD []) },
    validationRules := none }

/-- `parseResponse(responseText, toolName)`.  `parse` abstracts the fence
extraction plus `JSON.parse` plus field access: `none` when any of them
throws, in which case the surrounding catch returns the empty list. -/
def parseResponse (parse : String → Option (List RawTestCase))
    (responseText : String) (toolName : String) : List TestCase :=
  match parse responseText with
  | some tests => tests.map (toTestCase toolName)
  | none => []

/-- `generateTests(tools, config)`.  `complete` abstracts the collaborator
round trip (`anthropic.completions.create`), which may throw; the per-tool
try/catch logs and continues with the next tool. -/
def generateTests (complete : ToolDefinition → Except String String)
    (parse : String → Option (List RawTestCase))
    (tools : List ToolDefinition) : List TestCase :=
  tools.foldl (fun allTests tool =>
    match complete tool with
    | .ok text => allTests ++ parseResponse parse text tool.name
    | .error _ => allTests) []

/-- The contribution of a single tool to `generateTests`: used to state
that the loop is the ordered concatenation of per-tool contributions. -/
def genFor (complete : ToolDefinition → Except String String)
    (parse : String → Option (List RawTestCase)) (tool : ToolDefinition) : List TestCase :=
  match complete tool with
  | .ok text => parseResponse parse text tool.name
  | .error _ => []

/-! ## Orchestrator (`src/index.ts`, `runTests`) -/

/-- One iteration of the `for (const testCase of testCases)` loop: the
try block races the tool call, validates and builds the result; the catch
converts any exception (from execution or validation) into a failing
result carrying only a synthetic message.  `exec` abstracts
`Promise.race([executeTool, timeout])` together with the elapsed time. -/
def runOneTest (rt : String → String → Bool)
    (exec : TestCase → Except String (ToolResponse × Nat))
    (testCase : TestCase) : TestResult :=
  match exec testCase with
  | .ok (response, executionTime) =>
    match validateResponse rt response testCase with
    | .ok validationResult =>
      { testCase := testCase,
        passed := validationResult.valid,
        response := some response,
        validationErrors := some validationResult.errors,
        executionTime := some executionTime }
    | .error e =>
      { testCase := testCase, passed := false,
        validationErrors := some ["Unexpected error: " ++ e] }
  | .error e =>
    { testCase := testCase, passed := false,
      validationErrors := some ["Unexpected error: " ++ e] }

/-- The whole test loop: `results.push(...)` exactly once per iteration. -/
def runTestLoop (rt : String → String → Bool)
    (exec : TestCase → Except String (ToolResponse × Nat))
    (testCases : List TestCase) : List TestResult :=
  testCases.foldl (fun results testCase => results ++ [runOneTest rt exec testCase]) []

/-- Observable events of one server's campaign. -/
inductive Ev where
  | connect
  | listTools
  | generateTests
  | executeCase
  | report
  | disconnect
deriving DecidableEq

/-- Outcome of one server's campaign: the collected results (when the body
ran to completion), the exception that propagates out of the `finally`
(if any), and the ordered event trace. -/
structure CampaignOutcome where
  results : Option (List TestResult)
  thrown : Option String
  trace : List Ev

/-- One iteration of the per-server loop of `runTests` (src/index.ts lines
175–267): `connect` raced against a timeout, `listTools`, the
empty-tool-list `continue`, `generateTests`, the test loop, the report —
all inside `try { … } finally { await client.disconnect(); client = null }`.
The `finally` block runs on every path, including the `continue` and every
thrown exception; `MCPClient.disconnect` never throws, so `client` is
always reset and the disconnect happens exactly once per campaign.
Collaborator outcomes are parameters; `.error` means the corresponding
awaited step threw. -/
def serverCampaign (connectR : Except String Unit)
    (discoverR : Except String (List ToolDefinition))
    (genR : List ToolDefinition → Except String (List TestCase))
    (rt : String → String → Bool)
    (exec : TestCase → Except String (ToolResponse × Nat))
    (reportR : List TestResult → Except String Unit) : CampaignOutcome :=
  match connectR with
  | .error e =>
    { results := none, thrown := some e, trace := [.connect] ++ [.disconnect] }
  | .ok _ =>
    match discoverR with
    | .error e =>
      { results := none, thrown := some e,
        trace := [.connect, .listTools] ++ [.disconnect] }
    | .ok tools =>
      if tools.length = 0 then
        { results := none, thrown := none,
          trace := [.connect, .listTools] ++ [.disconnect] }
      else
        match genR tools with
        | .error e =>
          { results := none, thrown := some e,
            trace := [.connect, .listTools, .generateTests] ++ [.disconnect] }
        | .ok testCases =>
          match reportR (runTestLoop rt exec testCases) with
          | .error e =>
            { results := none, thrown := some e,
              trace := ([.connect, .listTools, .generateTests] ++
                testCases.map (fun _ => Ev.executeCase) ++ [.report]) ++ [.disconnect] }
          | .ok _ =>
            { results := some (runTestLoop rt exec testCases), thrown := none,
              trace := ([.connect, .listTools, .generateTests] ++
                testCases.map (fun _ => Ev.executeCase) ++ [.report]) ++ [.disconnect] }

/-! ## Serializer injectivity proofs -/

theorem digitVal_digitChar {d : Nat} (h : d < 10) : digitVal (digitChar d) = d := by
  interval_cases d <;> decide

theorem isDigitChar_digitChar {d : Nat} (h : d < 10) : isDigitChar (digitChar d) = true := by
  interval_cases d <;> decide

theorem natVal_append (l₁ l₂ : List Char) (acc : Nat) :
    natVal (l₁ ++ l₂) acc = natVal l₂ (natVal l₁ acc) := by
  induction l₁ generalizing acc with
  | nil => rfl
  | cons c cs ih => simp [natVal, ih]

theorem natVal_natChars (n : Nat) : natVal (natChars n) 0 = n := by
  induction n using Nat.strong_induction_on with
  | _ n ih =>
    rw [natChars]
    split
    · next h => simp [natVal, digitVal_digitChar h]
    · next h =>
      rw [natVal_append]
      have ih10 := ih (n / 10) (Nat.div_lt_self (by omega) (by omega))
      simp [natVal, ih10, digitVal_digitChar (Nat.mod_lt n (by omega))]
      omega

theorem natChars_inj {m n : Nat} (h : natChars m = natChars n) : m = n := by
  have hm := natVal_natChars m
  rw [h, natVal_natChars] at hm
  omega

theorem natChars_ne_nil (n : Nat) : natChars n ≠ [] := by
  rw [natChars]; split <;> simp

theorem isDigit_of_mem_natChars {n : Nat} : ∀ c ∈ natChars n, isDigitChar c = true := by
  induction n using Nat.strong_induction_on with
  | _ n ih =>
    intro c hc
    rw [natChars] at hc
    split at hc
    · next h =>
      simp at hc
      exact hc ▸ isDigitChar_digitChar h
    · next h =>
      rcases List.mem_append.mp hc with hmem | hmem
      · exact ih (n / 10) (Nat.div_lt_self (by omega) (by omega)) c hmem
      · simp at hmem
        exact hmem ▸ isDigitChar_digitChar (Nat.mod_lt n (by omega))

theorem guard_nil : Guard [] := fun c hc => by simp at hc

theorem guard_cons {c : Char} (h : isDigitChar c = false) (r : List Char) :
    Guard (c :: r) := by
  intro c' hc'
  simp at hc'
  exact hc' ▸ h

theorem digits_append_cancel {l₁ l₂ r₁ r₂ : List Char}
    (d₁ : ∀ c ∈ l₁, isDigitChar c = true) (d₂ : ∀ c ∈ l₂, isDigitChar c = true)
    (g₁ : Guard r₁) (g₂ : Guard r₂)
    (h : l₁ ++ r₁ = l₂ ++ r₂) : l₁ = l₂ ∧ r₁ = r₂ := by
  rcases List.append_eq_append_iff.mp h with ⟨t, ht₁, ht₂⟩ | ⟨t, ht₁, ht₂⟩
  · cases t with
    | nil => simp at ht₁ ht₂; exact ⟨ht₁.symm, ht₂⟩
    | cons c ts =>
      have hdig : isDigitChar c = true := d₂ c (by rw [ht₁]; simp)
      have hnot : isDigitChar c = false := g₁ c (by rw [ht₂]; rfl)
      rw [hdig] at hnot; cases hnot
  · cases t with
    | nil => simp at ht₁ ht₂; exact ⟨ht₁, ht₂.symm⟩
    | cons c ts =>
      have hdig : isDigitChar c = true := d₁ c (by rw [ht₁]; simp)
      have hnot : isDigitChar c = false := g₂ c (by rw [ht₂]; rfl)
      rw [hdig] at hnot; cases hnot

theorem intChars_append_cancel {m n : Int} {r₁ r₂ : List Char}
    (g₁ : Guard r₁) (g₂ : Guard r₂)
    (h : intChars m ++ r₁ = intChars n ++ r₂) : m = n ∧ r₁ = r₂ := by
  cases m with
  | ofNat m₀ =>
    cases n with
    | ofNat n₀ =>
      obtain ⟨hl, hr⟩ := digits_append_cancel (fun c hc => isDigit_of_mem_natChars c hc)
        (fun c hc => isDigit_of_mem_natChars c hc) g₁ g₂ h
      exact ⟨by rw [natChars_inj hl], hr⟩
    | negSucc n₀ =>
      obtain ⟨c, cs, hc⟩ := List.exists_cons_of_ne_nil (natChars_ne_nil m₀)
      simp only [intChars] at h
      rw [hc] at h
      simp at h
      have hdig := isDigit_of_mem_natChars (n := m₀) c (by rw [hc]; simp)
      rw [h.1] at hdig
      exact absurd hdig (by decide)
  | negSucc m₀ =>
    cases n with
    | ofNat n₀ =>
      obtain ⟨c, cs, hc⟩ := List.exists_cons_of_ne_nil (natChars_ne_nil n₀)
      simp only [intChars] at h
      rw [hc] at h
      simp at h
      have hdig := isDigit_of_mem_natChars (n := n₀) c (by rw [hc]; simp)
      rw [← h.1] at hdig
      exact absurd hdig (by decide)
    | negSucc n₀ =>
      simp [intChars] at h
      obtain ⟨hl, hr⟩ := digits_append_cancel (fun c hc => isDigit_of_mem_natChars c hc)
        (fun c hc => isDigit_of_mem_natChars c hc) g₁ g₂ h
      exact ⟨by rw [Nat.succ_injective (natChars_inj hl)], hr⟩

theorem not_esc_facts {c : Char} (h : isEsc c = false) : c ≠ '"' ∧ c ≠ '\\' := by
  simp [isEsc] at h
  exact ⟨h.1.1.1.1, h.1.1.1.2⟩

theorem escCode_inj {c₁ c₂ : Char} (h₁ : isEsc c₁ = true) (h₂ : isEsc c₂ = true)
    (h : escCode c₁ = escCode c₂) : c₁ = c₂ := by
  simp [isEsc] at h₁ h₂
  rcases h₁ with ((((rfl | rfl) | rfl) | rfl) | rfl) <;>
    rcases h₂ with ((((rfl | rfl) | rfl) | rfl) | rfl) <;>
    revert h <;> decide

theorem escChars_append_cancel :
    ∀ (l₁ l₂ r₁ r₂ : List Char),
      escChars l₁ ++ '"' :: r₁ = escChars l₂ ++ '"' :: r₂ → l₁ = l₂ ∧ r₁ = r₂ := by
  intro l₁
  induction l₁ with
  | nil =>
    intro l₂ r₁ r₂ h
    cases l₂ with
    | nil => simpa [escChars] using h
    | cons c₂ cs₂ =>
      exfalso
      by_cases hc : isEsc c₂
      · simp [escChars, escChar, hc] at h
      · simp [escChars, escChar, hc] at h
        exact (not_esc_facts (by simpa using hc)).1 h.1.symm
  | cons c₁ cs₁ ih =>
    intro l₂ r₁ r₂ h
    cases l₂ with
    | nil =>
      exfalso
      by_cases hc : isEsc c₁
      · simp [escChars, escChar, hc] at h
      · simp [escChars, escChar, hc] at h
        exact (not_esc_facts (by simpa using hc)).1 h.1
    | cons c₂ cs₂ =>
      by_cases h₁ : isEsc c₁ <;> by_cases h₂ : isEsc c₂
      · simp [escChars, escChar, h₁, h₂] at h
        obtain ⟨hcode, htail⟩ := h
        obtain ⟨hcs, hr⟩ := ih cs₂ r₁ r₂ htail
        exact ⟨by rw [escCode_inj h₁ h₂ hcode, hcs], hr⟩
      · exfalso
        simp [escChars, escChar, h₁, h₂] at h
        exact (not_esc_facts (by simpa using h₂)).2 h.1.symm
      · exfalso
        simp [escChars, escChar, h₁, h₂] at h
        exact (not_esc_facts (by simpa using h₁)).2 h.1
      · simp [escChars, escChar, h₁, h₂] at h
        obtain ⟨hchar, htail⟩ := h
        obtain ⟨hcs, hr⟩ := ih cs₂ r₁ r₂ htail
        exact ⟨by rw [hchar, hcs], hr⟩

theorem tagOfChar_digit {c : Char} (h : isDigitChar c = true) : tagOfChar c = 2 := by
  have h1 : c ≠ 'n' := by rintro rfl; revert h; decide
  have h2 : c ≠ 't' := by rintro rfl; revert h; decide
  have h3 : c ≠ 'f' := by rintro rfl; revert h; decide
  have h4 : c ≠ '"' := by rintro rfl; revert h; decide
  have h5 : c ≠ '[' := by rintro rfl; revert h; decide
  have h6 : c ≠ '{' := by rintro rfl; revert h; decide
  simp [tagOfChar, h1, h2, h3, h4, h5, h6]

theorem isStarter_digit {c : Char} (h : isDigitChar c = true) : isStarter c = true := by
  simp [isStarter, h]

theorem emit_head (j : Json) :
    ∃ c cs, emit j = c :: cs ∧ tagOfChar c = ctorTag j ∧ isStarter c = true := by
  cases j with
  | null => exact ⟨'n', ['u', 'l', 'l'], by simp [emit], by decide, by decide⟩
  | bool b => cases b with
    | true => exact ⟨'t', ['r', 'u', 'e'], by simp [emit], by decide, by decide⟩
    | false => exact ⟨'f', ['a', 'l', 's', 'e'], by simp [emit], by decide, by decide⟩
  | num n =>
    cases n with
    | ofNat n₀ =>
      obtain ⟨c, cs, hc⟩ := List.exists_cons_of_ne_nil (natChars_ne_nil n₀)
      have hdig := isDigit_of_mem_natChars (n := n₀) c (by rw [hc]; simp)
      exact ⟨c, cs, by simp [emit, intChars, hc], tagOfChar_digit hdig, isStarter_digit hdig⟩
    | negSucc n₀ =>
      exact ⟨'-', natChars (n₀ + 1), by simp [emit, intChars], rfl, by decide⟩
  | str s => exact ⟨'"', escChars s.data ++ ['"'], by simp [emit], rfl, by decide⟩
  | arr elems => exact ⟨'[', emitList elems ++ [']'], by simp [emit], rfl, by decide⟩
  | obj fields => exact ⟨'{', emitObj fields ++ ['}'], by simp [emit], rfl, by decide⟩

theorem ctorTag_eq_of_emit_append {j₁ j₂ : Json} {r₁ r₂ : List Char}
    (h : emit j₁ ++ r₁ = emit j₂ ++ r₂) : ctorTag j₁ = ctorTag j₂ := by
  obtain ⟨c₁, cs₁, e₁, t₁, _⟩ := emit_head j₁
  obtain ⟨c₂, cs₂, e₂, t₂, _⟩ := emit_head j₂
  rw [e₁, e₂] at h
  simp at h
  rw [← t₁, ← t₂, h.1]

theorem emitList_cancel :
    ∀ (l₁ : List Json), (∀ j ∈ l₁, EmitCancel j) →
    ∀ (l₂ : List Json) (r₁ r₂ : List Char),
      emitList l₁ ++ ']' :: r₁ = emitList l₂ ++ ']' :: r₂ → l₁ = l₂ ∧ r₁ = r₂ := by
  intro l₁
  induction l₁ with
  | nil =>
    intro _ l₂ r₁ r₂ h
    cases l₂ with
    | nil => simp [emitList] at h; exact ⟨rfl, h⟩
    | cons y ys =>
      exfalso
      obtain ⟨c, cs, e, _, hst⟩ := emit_head y
      cases ys with
      | nil =>
        rw [show emitList [y] = emit y from by simp [emitList], e] at h
        simp [emitList] at h
        rw [← h.1] at hst
        revert hst; decide
      | cons z zs =>
        rw [show emitList (y :: z :: zs) = emit y ++ ',' :: emitList (z :: zs) from by
          simp [emitList], e] at h
        simp [emitList] at h
        rw [← h.1] at hst
        revert hst; decide
  | cons x xs ih =>
    intro hIH l₂ r₁ r₂ h
    have hx : EmitCancel x := hIH x (by simp)
    cases l₂ with
    | nil =>
      exfalso
      obtain ⟨c, cs, e, _, hst⟩ := emit_head x
      cases xs with
      | nil =>
        rw [show emitList [x] = emit x from by simp [emitList], e] at h
        simp [emitList] at h
        rw [h.1] at hst
        revert hst; decide
      | cons w ws =>
        rw [show emitList (x :: w :: ws) = emit x ++ ',' :: emitList (w :: ws) from by
          simp [emitList], e] at h
        simp [emitList] at h
        rw [h.1] at hst
        revert hst; decide
    | cons y ys =>
      cases xs with
      | nil =>
        cases ys with
        | nil =>
          rw [show emitList [x] = emit x from by simp [emitList],
            show emitList [y] = emit y from by simp [emitList]] at h
          obtain ⟨hxy, ht⟩ := hx y _ _ (guard_cons (by decide) _) (guard_cons (by decide) _) h
          simp at ht
          exact ⟨by rw [hxy], ht⟩
        | cons z zs =>
          exfalso
          rw [show emitList [x] = emit x from by simp [emitList],
            show emitList (y :: z :: zs) = emit y ++ ',' :: emitList (z :: zs) from by
              simp [emitList]] at h
          rw [List.append_assoc] at h
          obtain ⟨hxy, ht⟩ := hx y _ _ (guard_cons (by decide) _) (guard_cons (by decide) _) h
          simp at ht
      | cons w ws =>
        cases ys with
        | nil =>
          exfalso
          rw [show emitList (x :: w :: ws) = emit x ++ ',' :: emitList (w :: ws) from by
            simp [emitList], show emitList [y] = emit y from by simp [emitList]] at h
          rw [List.append_assoc] at h
          obtain ⟨hxy, ht⟩ := hx y _ _ (guard_cons (by decide) _) (guard_cons (by decide) _) h
          simp at ht
        | cons z zs =>
          rw [show emitList (x :: w :: ws) = emit x ++ ',' :: emitList (w :: ws) from by
            simp [emitList],
            show emitList (y :: z :: zs) = emit y ++ ',' :: emitList (z :: zs) from by
              simp [emitList]] at h
          rw [List.append_assoc, List.append_assoc] at h
          obtain ⟨hxy, ht⟩ := hx y _ _ (guard_cons (by decide) _) (guard_cons (by decide) _) h
          simp only [List.cons_append, List.cons.injEq, true_and] at ht
          obtain ⟨hws, hr⟩ := ih (fun j hj => hIH j (by simp [hj])) (z :: zs) r₁ r₂ (by
            simpa [List.append_assoc] using ht)
          exact ⟨by rw [hxy, hws], hr⟩

theorem emitEntry_cancel {k₁ k₂ : String} {v₁ v₂ : Json} (hv : EmitCancel v₁)
    {t₁ t₂ : List Char} (g₁ : Guard t₁) (g₂ : Guard t₂)
    (h : ('"' :: (escChars k₁.data ++ '"' :: ':' :: emit v₁)) ++ t₁ =
         ('"' :: (escChars k₂.data ++ '"' :: ':' :: emit v₂)) ++ t₂) :
    k₁ = k₂ ∧ v₁ = v₂ ∧ t₁ = t₂ := by
  simp only [List.cons_append, List.append_assoc, List.cons.injEq, true_and] at h
  obtain ⟨hk, hr⟩ := escChars_append_cancel _ _ _ _ h
  simp only [List.cons.injEq, true_and] at hr
  obtain ⟨hv', ht⟩ := hv v₂ t₁ t₂ g₁ g₂ hr
  exact ⟨congrArg String.mk hk, hv', ht⟩

theorem emitObj_cancel :
    ∀ (l₁ : List (String × Json)), (∀ kv ∈ l₁, EmitCancel kv.2) →
    ∀ (l₂ : List (String × Json)) (r₁ r₂ : List Char),
      emitObj l₁ ++ '}' :: r₁ = emitObj l₂ ++ '}' :: r₂ → l₁ = l₂ ∧ r₁ = r₂ := by
  intro l₁
  induction l₁ with
  | nil =>
    intro _ l₂ r₁ r₂ h
    cases l₂ with
    | nil => simp [emitObj] at h; exact ⟨rfl, h⟩
    | cons p ps =>
      exfalso
      obtain ⟨k, v⟩ := p
      cases ps with
      | nil =>
        rw [show emitObj [(k, v)] = '"' :: (escChars k.data ++ '"' :: ':' :: emit v) from by
          simp [emitObj]] at h
        simp [emitObj] at h
      | cons q qs =>
        rw [show emitObj ((k, v) :: q :: qs) =
            ('"' :: (escChars k.data ++ '"' :: ':' :: emit v)) ++ ',' :: emitObj (q :: qs) from by
          simp [emitObj]] at h
        simp [emitObj] at h
  | cons p ps ih =>
    intro hIH l₂ r₁ r₂ h
    obtain ⟨k, v⟩ := p
    have hv : EmitCancel v := hIH (k, v) (by simp)
    cases l₂ with
    | nil =>
      exfalso
      cases ps with
      | nil =>
        rw [show emitObj [(k, v)] = '"' :: (escChars k.data ++ '"' :: ':' :: emit v) from by
          simp [emitObj]] at h
        simp [emitObj] at h
      | cons q qs =>
        rw [show emitObj ((k, v) :: q :: qs) =
            ('"' :: (escChars k.data ++ '"' :: ':' :: emit v)) ++ ',' :: emitObj (q :: qs) from by
          simp [emitObj]] at h
        simp [emitObj] at h
    | cons p₂ ps₂ =>
      obtain ⟨k₂, v₂⟩ := p₂
      cases ps with
      | nil =>
        cases ps₂ with
        | nil =>
          rw [show emitObj [(k, v)] = '"' :: (escChars k.data ++ '"' :: ':' :: emit v) from by
              simp [emitObj],
            show emitObj [(k₂, v₂)] = '"' :: (escChars k₂.data ++ '"' :: ':' :: emit v₂) from by
              simp [emitObj]] at h
          obtain ⟨hk, hv', ht⟩ := emitEntry_cancel hv (guard_cons (by decide) _)
            (guard_cons (by decide) _) h
          simp at ht
          exact ⟨by rw [hk, hv'], ht⟩
        | cons q qs =>
          exfalso
          rw [show emitObj [(k, v)] = '"' :: (escChars k.data ++ '"' :: ':' :: emit v) from by
              simp [emitObj],
            show emitObj ((k₂, v₂) :: q :: qs) =
              ('"' :: (escChars k₂.data ++ '"' :: ':' :: emit v₂)) ++ ',' :: emitObj (q :: qs)
              from by simp [emitObj]] at h
          rw [List.append_assoc] at h
          obtain ⟨hk, hv', ht⟩ := emitEntry_cancel hv (guard_cons (by decide) _)
            (guard_cons (by decide) _) h
          simp at ht
      | cons q qs =>
        cases ps₂ with
        | nil =>
          exfalso
          rw [show emitObj ((k, v) :: q :: qs) =
              ('"' :: (escChars k.data ++ '"' :: ':' :: emit v)) ++ ',' :: emitObj (q :: qs)
              from by simp [emitObj],
            show emitObj [(k₂, v₂)] = '"' :: (escChars k₂.data ++ '"' :: ':' :: emit v₂) from by
              simp [emitObj]] at h
          rw [List.append_assoc] at h
          obtain ⟨hk, hv', ht⟩ := emitEntry_cancel hv (guard_cons (by decide) _)
            (guard_cons (by decide) _) h
          simp at ht
        | cons q₂ qs₂ =>
          rw [show emitObj ((k, v) :: q :: qs) =
              ('"' :: (escChars k.data ++ '"' :: ':' :: emit v)) ++ ',' :: emitObj (q :: qs)
              from by simp [emitObj],
            show emitObj ((k₂, v₂) :: q₂ :: qs₂) =
              ('"' :: (escChars k₂.data ++ '"' :: ':' :: emit v₂)) ++ ',' :: emitObj (q₂ :: qs₂)
              from by simp [emitObj]] at h
          rw [List.append_assoc, List.append_assoc] at h
          obtain ⟨hk, hv', ht⟩ := emitEntry_cancel hv (guard_cons (by decide) _)
            (guard_cons (by decide) _) h
          simp only [List.cons.injEq, true_and] at ht
          obtain ⟨hqs, hr⟩ := ih (fun kv hkv => hIH kv (by simp [hkv])) (q₂ :: qs₂) r₁ r₂ (by
            simpa [List.append_assoc] using ht)
          exact ⟨by rw [hk, hv', hqs], hr⟩

theorem emit_append_cancel :
    ∀ (N : Nat) (j₁ : Json), sizeOf j₁ ≤ N → ∀ (j₂ : Json) (r₁ r₂ : List Char),
      Guard r₁ → Guard r₂ → emit j₁ ++ r₁ = emit j₂ ++ r₂ → j₁ = j₂ ∧ r₁ = r₂ := by
  intro N
  induction N with
  | zero =>
    intro j₁ hsz
    exfalso
    cases j₁ <;> simp at hsz
  | succ N ih =>
    intro j₁ hsz j₂ r₁ r₂ g₁ g₂ h
    cases j₁ <;> cases j₂ <;>
      first
      | exact absurd (ctorTag_eq_of_emit_append h) (by simp only [ctorTag]; decide)
      | skip
    · -- null / null
      simp [emit] at h
      exact ⟨rfl, h⟩
    · -- bool / bool
      rename_i b₁ b₂
      cases b₁ <;> cases b₂ <;> simp [emit] at h <;> exact ⟨rfl, h⟩
    · -- num / num
      rename_i m n
      simp only [emit] at h
      obtain ⟨hmn, hr⟩ := intChars_append_cancel g₁ g₂ h
      exact ⟨by rw [hmn], hr⟩
    · -- str / str
      rename_i s₁ s₂
      simp only [emit, List.cons_append, List.append_assoc, List.singleton_append,
        List.cons.injEq, true_and] at h
      obtain ⟨hs, hr⟩ := escChars_append_cancel _ _ _ _ h
      exact ⟨congrArg Json.str (show s₁ = s₂ from congrArg String.mk hs), hr⟩
    · -- arr / arr
      rename_i l₁ l₂
      simp only [emit, List.cons_append, List.append_assoc, List.singleton_append,
        List.cons.injEq, true_and] at h
      have hIH : ∀ j ∈ l₁, EmitCancel j := by
        intro j hj
        have h1 := List.sizeOf_lt_of_mem hj
        have h2 : sizeOf (Json.arr l₁) = 1 + sizeOf l₁ := by simp
        exact ih j (by omega)
      obtain ⟨hl, hr⟩ := emitList_cancel l₁ hIH l₂ r₁ r₂ h
      exact ⟨by rw [hl], hr⟩
    · -- obj / obj
      rename_i f₁ f₂
      simp only [emit, List.cons_append, List.append_assoc, List.singleton_append,
        List.cons.injEq, true_and] at h
      have hIH : ∀ kv ∈ f₁, EmitCancel kv.2 := by
        intro kv hkv
        have h1 := List.sizeOf_lt_of_mem hkv
        have h2 : sizeOf (Json.obj f₁) = 1 + sizeOf f₁ := by simp
        have h3 : sizeOf kv.2 < sizeOf kv := by
          obtain ⟨k, v⟩ := kv
          simp
        exact ih kv.2 (by omega)
      obtain ⟨hf, hr⟩ := emitObj_cancel f₁ hIH f₂ r₁ r₂ h
      exact ⟨by rw [hf], hr⟩

/-- `JSON.stringify` (as modelled) is injective: equal serializations mean
structurally equal values. -/
theorem stringify_inj {j₁ j₂ : Json} (h : stringify j₁ = stringify j₂) : j₁ = j₂ := by
  have hd : emit j₁ ++ ([] : List Char) = emit j₂ ++ [] := by
    have := congrArg String.data h
    simpa [stringify] using this
  exact (emit_append_cancel (sizeOf j₁) j₁ le_rfl j₂ [] [] guard_nil guard_nil hd).1

theorem stringifyOpt_inj {a b : Option Json} : stringifyOpt a = stringifyOpt b ↔ a = b := by
  cases a with
  | none => cases b with
    | none => simp
    | some jb => simp [stringifyOpt]
  | some ja => cases b with
    | none => simp [stringifyOpt]
    | some jb =>
      constructor
      · intro h
        have h2 : stringify ja = stringify jb := by simpa [stringifyOpt] using h
        rw [stringify_inj h2]
      · intro h
        rw [h]

theorem stringifyOpt_beq_iff (a b : Option Json) :
    (stringifyOpt a == stringifyOpt b) = true ↔ a = b := by
  rw [beq_iff_eq]
  exact stringifyOpt_inj

/-! ## Validator theorems -/

/-- C3 counterexample: a success response paired with an expected-error
test case has mismatching statuses, yet `validateResponse` returns
`valid = true` with no errors — the claimed status gate against
`expectedOutcome.status` does not exist in the code. -/
theorem status_gate_counterexample :
    (ToolResponse.status { status := .success, data := some (.str "ok") } ≠
      ExpectedOutcome.status { status := .error }) ∧
    validateResponse (fun _ _ => false) { status := .success, data := some (.str "ok") }
      { toolName := "t", description := "d", expectedOutcome := { status := .error } } =
      .ok { valid := true, errors := [] } :=
  ⟨by decide, rfl⟩

/-- C3 (amended): a response with `status = 'error'` short-circuits:
`validateResponse` returns `valid = false` with exactly one error (the
execution-failure message) and evaluates no rule, whatever the test case
carries; and the expected status is never consulted — replacing
`expectedOutcome` never changes the verdict.  A success response is
validated normally even when an error was expected. -/
theorem validateResponse_error_short_circuit (rt : String → String → Bool)
    (response : ToolResponse) (testCase : TestCase) (outcome : ExpectedOutcome) :
    (response.status = .error →
      validateResponse rt response testCase =
        .ok { valid := false,
              errors := ["Tool execution failed: " ++
                jsStringOr (response.error.map (fun e => e.message)) "Unknown error"] }) ∧
    validateResponse rt response { testCase with expectedOutcome := outcome } =
      validateResponse rt response testCase := by
  constructor
  · intro h
    simp [validateResponse, h]
  · rfl

/-- C3 witness: the short-circuit applied at a concrete error response. -/
theorem validateResponse_error_short_circuit_witness :
    validateResponse (fun _ _ => false)
      { status := .error, error := some { message := "boom" } }
      { toolName := "t", description := "d", expectedOutcome := { status := .success },
        validationRules := some [{ type := .hasProperty, message := "unreached" }] } =
      .ok { valid := false, errors := ["Tool execution failed: boom"] } := by
  have h := (validateResponse_error_short_circuit (fun _ _ => false)
    { status := .error, error := some { message := "boom" } }
    { toolName := "t", description := "d", expectedOutcome := { status := .success },
      validationRules := some [{ type := .hasProperty, message := "unreached" }] }
    { status := .error }).1 rfl
  simpa [jsStringOr] using h

/-- C4 (the code evaluated at the failing input): a test case expecting an
error paired with a response reporting an error yields `valid = false`
with one execution-failure error — not the claimed `valid = true` with no
errors — because `validateResponse` fails every error-status response
unconditionally and never consults `expectedOutcome.status`. -/
theorem expected_error_response_fails :
    validateResponse (fun _ _ => false)
      { status := .error, error := some { message := "bad input" } }
      { toolName := "t", description := "d", expectedOutcome := { status := .error } } =
      .ok { valid := false, errors := ["Tool execution failed: bad input"] } := rfl

/-- C5 counterexample: a `contains` rule with absent target and absent
value is not skipped — it contributes its message. -/
theorem skip_rule_counterexample :
    validateRules (fun _ _ => false) (some (.str "hello"))
      [{ type := .contains, message := "m1" }] = .ok ["m1"] ∧
    (Except.ok ["m1"] : Except String (List String)) ≠ .ok [] :=
  ⟨rfl, by simp⟩

/-- C5 (amended): a `contains` or `hasProperty` rule with absent target
and value always fails, contributing exactly its message; a `matches` rule
with both absent contributes its message exactly when the response data is
present (absent data deep-equals the absent value); none of them throws. -/
theorem absent_target_value_rules (rt : String → String → Bool) (data : Option Json)
    (m : String) :
    validateRules rt data [{ type := .contains, message := m }] = .ok [m] ∧
    validateRules rt data [{ type := .hasProperty, message := m }] = .ok [m] ∧
    validateRules rt data [{ type := .matches, message := m }] =
      .ok (if data.isNone then [] else [m]) := by
  cases data with
  | none => exact ⟨rfl, rfl, rfl⟩
  | some j => cases j <;> exact ⟨rfl, rfl, rfl⟩

/-- C7 counterexample: a custom rule carrying its caller-supplied
predicate in the declared `customValidator` field is skipped outright —
the predicate is never invoked, and a false verdict contributes no
error. -/
theorem customValidator_counterexample :
    validateRules (fun _ _ => false) (some .null)
      [{ type := .custom, customValidator := some (fun _ => .ok false),
         message := "m5" }] = .ok [] ∧
    (Except.ok [] : Except String (List String)) ≠ .ok ["m5"] :=
  ⟨rfl, by simp⟩

/-- C7 (amended): the validator reads the property `custom`, not the
declared `customValidator`: a rule carrying only `customValidator` is
skipped without invoking its predicate; a rule carrying `custom` invokes
it on the full response data — a false verdict contributes the message,
while a throwing predicate propagates the exception (aborting validation)
instead of contributing the message. -/
theorem custom_rule_semantics (rt : String → String → Bool) (data : Option Json)
    (f : Option Json → Except String Bool) (m : String) :
    validateRules rt data
      [{ type := .custom, customValidator := some f, message := m }] = .ok [] ∧
    validateRules rt data [{ type := .custom, custom := some f, message := m }] =
      (match f data with
       | .ok true => .ok []
       | .ok false => .ok [m]
       | .error e => .error e) := by
  constructor
  · rfl
  · rcases hf : f data with e | b
    · simp [validateRules, applyRule, hf]
    · cases b <;> simp [validateRules, applyRule, hf, Except.map]

/-- C8: `executeTool` throws exactly when no session is connected; with a
session it never throws, and a failing call comes back as data: an
error-status `ToolResponse` carrying the failure message (with the
`'Unknown error'` default for an absent or empty message) and the failure
code when present. -/
theorem executeTool_failures_as_data (call : Except CallFailure Json) (ce : CallFailure) :
    executeTool none call = .error "Not connected to an MCP server" ∧
    (∃ resp, executeTool (some ()) call = .ok resp) ∧
    executeTool (some ()) (.error ce) =
      .ok { status := .error, data := none,
            error := some { message := jsStringOr ce.message "Unknown error",
                            code := ce.code } } := by
  refine ⟨rfl, ?_, rfl⟩
  rcases call with e | r
  · exact ⟨_, rfl⟩
  · exact ⟨_, rfl⟩

/-- C10: for a success response and a test case whose rule list is absent
or empty, the verdict is decided by data presence alone: valid exactly
when `response.data` is present and truthy, otherwise invalid with the
single error `'No data in response'`. -/
theorem no_rules_data_check (rt : String → String → Bool) (response : ToolResponse)
    (testCase : TestCase) (hs : response.status = .success)
    (hr : testCase.validationRules = none ∨ testCase.validationRules = some []) :
    validateResponse rt response testCase =
      .ok (if truthyOpt response.data then { valid := true, errors := [] }
        else { valid := false, errors := ["No data in response"] }) := by
  rcases hr with hr | hr <;> simp [validateResponse, hs, hr]

/-- C10 witness: truthy data passes, absent data fails with the single
message. -/
theorem no_rules_data_check_witness :
    validateResponse (fun _ _ => false)
      { status := .success, data := some (.str "payload") }
      { toolName := "t", description := "d", expectedOutcome := { status := .success } } =
      .ok { valid := true, errors := [] } ∧
    validateResponse (fun _ _ => false) { status := .success }
      { toolName := "t", description := "d", expectedOutcome := { status := .success } } =
      .ok { valid := false, errors := ["No data in response"] } := by
  constructor
  · have h := no_rules_data_check (fun _ _ => false)
      { status := .success, data := some (.str "payload") }
      { toolName := "t", description := "d", expectedOutcome := { status := .success } }
      rfl (Or.inl rfl)
    simpa [truthyOpt, truthy] using h
  · have h := no_rules_data_check (fun _ _ => false) { status := .success }
      { toolName := "t", description := "d", expectedOutcome := { status := .success } }
      rfl (Or.inl rfl)
    simpa [truthyOpt] using h

/-- C6: a `matches` rule whose value is a slash-wrapped string and whose
resolved target is a string passes iff the regex matcher accepts the
interior pattern on the target; in every other case it passes iff the
resolved target and the value are deeply structurally equal (by
`stringify_inj`, serialization equality coincides with equality of the
value trees). -/
theorem validateMatches_semantics (rt : String → String → Bool) (data : Option Json)
    (target : Option String) (value : Option Json) :
    (∀ tv v, getValueByPath data target = some (.str tv) → value = some (.str v) →
      regexWrapped v = true →
      validateMatches rt data target value = rt (regexBody v) tv) ∧
    ((∀ tv v, ¬(getValueByPath data target = some (.str tv) ∧ value = some (.str v) ∧
        regexWrapped v = true)) →
      (validateMatches rt data target value = true ↔
        getValueByPath data target = value)) := by
  constructor
  · intro tv v htv hv hw
    simp [validateMatches, htv, hv, hw]
  · intro hnot
    rcases hA : getValueByPath data target with _ | jA
    · simp [validateMatches, hA, stringifyOpt_inj]
    · cases jA with
      | str tv =>
        rcases hv : value with _ | jv
        · simp [validateMatches, hA, hv, stringifyOpt_inj]
        · cases jv with
          | str v =>
            have hw : regexWrapped v = false := by
              cases hcon : regexWrapped v with
              | false => rfl
              | true => exact absurd ⟨hA, hv, hcon⟩ (hnot tv v)
            simp [validateMatches, hA, hv, hw]
          | null => simp [validateMatches, hA, hv, stringifyOpt_inj]
          | bool b => simp [validateMatches, hA, hv, stringifyOpt_inj]
          | num n => simp [validateMatches, hA, hv, stringifyOpt_inj]
          | arr l => simp [validateMatches, hA, hv, stringifyOpt_inj]
          | obj fs => simp [validateMatches, hA, hv, stringifyOpt_inj]
      | null => simp [validateMatches, hA, stringifyOpt_inj]
      | bool b => simp [validateMatches, hA, stringifyOpt_inj]
      | num n => simp [validateMatches, hA, stringifyOpt_inj]
      | arr l => simp [validateMatches, hA, stringifyOpt_inj]
      | obj fs => simp [validateMatches, hA, stringifyOpt_inj]

/-- C6 witness: the regex branch applied at a concrete wrapped pattern,
and the structural branch at a concrete non-string pair. -/
theorem validateMatches_semantics_witness :
    validateMatches (fun _ _ => true) (some (.obj [("id", .str "build-123")]))
      (some "id") (some (.str "/^build/")) = true ∧
    (validateMatches (fun _ _ => true) (some (.num 5)) none (some (.num 5)) = true ↔
      getValueByPath (some (.num 5)) none = some (.num 5)) := by
  constructor
  · have h := (validateMatches_semantics (fun _ _ => true)
      (some (.obj [("id", .str "build-123")])) (some "id") (some (.str "/^build/"))).1
      "build-123" "/^build/" rfl rfl rfl
    simpa using h
  · exact (validateMatches_semantics (fun _ _ => true) (some (.num 5)) none
      (some (.num 5))).2 (by intro tv v hcon; simp [getValueByPath] at hcon)

/-! ## Orchestrator theorems -/

theorem runOneTest_testCase (rt : String → String → Bool)
    (exec : TestCase → Except String (ToolResponse × Nat)) (tc : TestCase) :
    (runOneTest rt exec tc).testCase = tc := by
  unfold runOneTest
  rcases hexec : exec tc with e | ⟨resp, t⟩
  · rfl
  · rcases hval : validateResponse rt resp tc with e | vr <;> simp [hval]

theorem foldl_push_map {α β : Type} (f : α → β) :
    ∀ (l : List α) (init : List β),
      l.foldl (fun acc a => acc ++ [f a]) init = init ++ l.map f := by
  intro l
  induction l with
  | nil => intro init; simp
  | cons x xs ih => intro init; simp [ih]

theorem foldl_append_flatten {α β : Type} (f : α → List β) :
    ∀ (l : List α) (init : List β),
      l.foldl (fun acc a => acc ++ f a) init = init ++ (l.map f).flatten := by
  intro l
  induction l with
  | nil => intro init; simp
  | cons x xs ih => intro init; simp [ih]

theorem runTestLoop_eq_map (rt : String → String → Bool)
    (exec : TestCase → Except String (ToolResponse × Nat)) (testCases : List TestCase) :
    runTestLoop rt exec testCases = testCases.map (runOneTest rt exec) := by
  unfold runTestLoop
  simpa using foldl_push_map (runOneTest rt exec) testCases []

/-- C1: the orchestrator loop yields exactly one TestResult per TestCase
and in the same order: the results' test cases are the input list itself
(so the counts agree and nothing is dropped), and a case whose execution
and validation both return yields exactly the result built from the
validator's verdict. -/
theorem runTestLoop_one_result_per_case (rt : String → String → Bool)
    (exec : TestCase → Except String (ToolResponse × Nat)) (testCases : List TestCase) :
    (runTestLoop rt exec testCases).map (fun r => r.testCase) = testCases ∧
    (runTestLoop rt exec testCases).length = testCases.length ∧
    (∀ (i : Nat) (tc : TestCase) (resp : ToolResponse) (t : Nat) (vr : ValidationResult),
      testCases[i]? = some tc →
      exec tc = .ok (resp, t) →
      validateResponse rt resp tc = .ok vr →
      (runTestLoop rt exec testCases)[i]? =
        some { testCase := tc, passed := vr.valid, response := some resp,
               validationErrors := some vr.errors, executionTime := some t }) := by
  refine ⟨?_, ?_, ?_⟩
  · simp [runTestLoop_eq_map, List.map_map, Function.comp_def, runOneTest_testCase]
  · rw [runTestLoop_eq_map, List.length_map]
  · intro i tc resp t vr hi hexec hval
    rw [runTestLoop_eq_map, List.getElem?_map, hi]
    simp [runOneTest, hexec, hval]

/-- C1 witness: a singleton test list yields the one result built from the
validator's verdict. -/
theorem runTestLoop_one_result_per_case_witness :
    (runTestLoop (fun _ _ => false)
      (fun _ => .ok ({ status := .success, data := some (.str "ok") }, 7))
      [{ toolName := "tool", description := "d",
         expectedOutcome := { status := .success } }])[0]? =
      some { testCase := { toolName := "tool", description := "d",
                           expectedOutcome := { status := .success } },
             passed := true,
             response := some { status := .success, data := some (.str "ok") },
             validationErrors := some [], executionTime := some 7 } :=
  (runTestLoop_one_result_per_case (fun _ _ => false)
    (fun _ => .ok ({ status := .success, data := some (.str "ok") }, 7))
    [{ toolName := "tool", description := "d",
       expectedOutcome := { status := .success } }]).2.2 0
    { toolName := "tool", description := "d", expectedOutcome := { status := .success } }
    { status := .success, data := some (.str "ok") } 7
    { valid := true, errors := [] } rfl rfl rfl

/-- C2: on every termination path of a server's campaign — connect
failure, discovery failure, empty tool list, generation failure, report
failure, or normal completion — the trace contains exactly one disconnect
event, and it is the final event, before the orchestrator moves on to the
next server or lets the exception propagate. -/
theorem serverCampaign_disconnect_once (connectR : Except String Unit)
    (discoverR : Except String (List ToolDefinition))
    (genR : List ToolDefinition → Except String (List TestCase))
    (rt : String → String → Bool)
    (exec : TestCase → Except String (ToolResponse × Nat))
    (reportR : List TestResult → Except String Unit) :
    (serverCampaign connectR discoverR genR rt exec reportR).trace.count Ev.disconnect = 1 ∧
    (serverCampaign connectR discoverR genR rt exec reportR).trace.getLast? =
      some Ev.disconnect := by
  have hbody : ∀ l : List Ev, Ev.disconnect ∉ l →
      (l ++ [Ev.disconnect]).count Ev.disconnect = 1 ∧
      (l ++ [Ev.disconnect]).getLast? = some Ev.disconnect := by
    intro l hl
    refine ⟨?_, List.getLast?_concat l⟩
    rw [List.count_append]
    simp [List.count_eq_zero.mpr hl]
  unfold serverCampaign
  rcases connectR with e | u
  · exact hbody _ (by decide)
  · rcases discoverR with e | tools
    · exact hbody _ (by decide)
    · dsimp only
      by_cases htl : tools.length = 0
      · rw [if_pos htl]
        exact hbody _ (by decide)
      · rw [if_neg htl]
        rcases genR tools with e | testCases
        · exact hbody _ (by decide)
        · dsimp only
          rcases reportR (runTestLoop rt exec testCases) with e | u2 <;>
          · refine hbody _ ?_
            simp

/-! ## Generator theorems -/

/-- C9: test generation is the ordered concatenation of per-tool
contributions — a failed tool contributes nothing while the other tools'
cases survive — and a tool contributes zero cases (never a placeholder)
both when the collaborator call throws and when its reply is
unparseable. -/
theorem generateTests_isolates_failures
    (complete : ToolDefinition → Except String String)
    (parse : String → Option (List RawTestCase)) (tools : List ToolDefinition) :
    generateTests complete parse tools = (tools.map (genFor complete parse)).flatten ∧
    (∀ tool e, complete tool = .error e → genFor complete parse tool = []) ∧
    (∀ tool text, complete tool = .ok text → parse text = none →
      genFor complete parse tool = []) := by
  refine ⟨?_, ?_, ?_⟩
  · have hstep : (fun (allTests : List TestCase) (tool : ToolDefinition) =>
        match complete tool with
        | .ok text => allTests ++ parseResponse parse text tool.name
        | .error _ => allTests) =
        fun acc tool => acc ++ genFor complete parse tool := by
      funext acc tool
      rcases h : complete tool with e | text <;> simp [genFor, h]
    unfold generateTests
    rw [hstep]
    simpa using foldl_append_flatten (genFor complete parse) tools []
  · intro tool e h
    simp [genFor, h]
  · intro tool text hok hparse
    simp [genFor, hok, parseResponse, hparse]

/-- C9 witness: of two tools, the one whose collaborator call throws
contributes zero cases while the other's case survives. -/
theorem generateTests_isolates_failures_witness :
    generateTests
      (fun t => if t.name = "alpha" then .error "api down" else .ok "reply")
      (fun text => if text = "reply"
        then some [{ description := "case", status := .success }] else none)
      [{ name := "alpha" }, { name := "beta" }] =
      [toTestCase "beta" { description := "case", status := .success }] ∧
    genFor (fun t => if t.name = "alpha" then .error "api down" else .ok "reply")
      (fun text => if text = "reply"
        then some [{ description := "case", status := .success }] else none)
      { name := "alpha" } = [] := by
  have h := generateTests_isolates_failures
    (fun t => if t.name = "alpha" then .error "api down" else .ok "reply")
    (fun text => if text = "reply"
      then some [{ description := "case", status := .success }] else none)
    [{ name := "alpha" }, { name := "beta" }]
  refine ⟨?_, h.2.1 { name := "alpha" } "api down" rfl⟩
  rw [h.1]
  rfl

end MCPTester
